import Mathlib

/-!
# Global Power Analytics dashboard — verified model

A shallow embedding of the data pipeline of `src/app.py` (a Streamlit
dashboard over the WRI global power plant CSV):

* `load_data` models lines 10–15: `pd.read_csv` plus `pd.to_numeric` with coercing errors
  on `capacity_mw`, then `dropna` on latitude, longitude and capacity_mw.
* `region_df` models line 31: the country/fuel boolean-mask filter.
* `capacity_stats` models line 36: group capacity_mw by primary_fuel, sum,
  and sort the sums descending.
* `kpi_block` models lines 45–49: the guarded KPI metrics, including the
  `capacity_stats.index[0]` access.
* `map_center` models line 52: the unguarded coordinate means fed to `folium.Map`.
* `colorKey` models lines 61 and 71: the fuel→color dict lookup with a gray default.
* `to_csv` / `parseCsv` model lines 92–94: the index-free CSV export of
  `region_df`, its UTF-8 encoding, and parsing the produced CSV text back.

Machine floats are modelled as `ℚ`; the float `NaN` produced by failed numeric
coercion or by the mean of an empty series is modelled as `Option.none`.
-/

namespace GPA

/-! ## Decimal digits and numeral strings

Infrastructure modelling the numeral formatting/parsing done by pandas
(`to_numeric`, `read_csv` float coercion and `to_csv` float rendering). -/

/-- Is this character a decimal digit? -/
def isDigitCh (c : Char) : Bool := '0' ≤ c && c ≤ '9'

/-- Numeric value of a digit character. -/
def digitVal (c : Char) : ℕ := c.toNat - 48

/-- The digit character for a value `< 10`. -/
def digitCh (d : ℕ) : Char :=
  match d with
  | 0 => '0' | 1 => '1' | 2 => '2' | 3 => '3' | 4 => '4'
  | 5 => '5' | 6 => '6' | 7 => '7' | 8 => '8' | _ => '9'

/-- Value of a big-endian digit string. -/
def digitsToNat (cs : List Char) : ℕ := cs.foldl (fun a c => 10 * a + digitVal c) 0

/-- Big-endian decimal digit string of a natural number. -/
def natToDigits (n : ℕ) : List Char :=
  if h : n < 10 then [digitCh n]
  else natToDigits (n / 10) ++ [digitCh (n % 10)]
decreasing_by exact Nat.div_lt_self (by omega) (by omega)

theorem digitVal_digitCh {d : ℕ} (h : d < 10) : digitVal (digitCh d) = d := by
  interval_cases d <;> rfl

theorem isDigitCh_digitCh {d : ℕ} (h : d < 10) : isDigitCh (digitCh d) = true := by
  interval_cases d <;> rfl

theorem digitsToNat_append_singleton (l : List Char) (c : Char) :
    digitsToNat (l ++ [c]) = 10 * digitsToNat l + digitVal c := by
  simp [digitsToNat, List.foldl_append]

theorem natToDigits_ne_nil (n : ℕ) : natToDigits n ≠ [] := by
  rw [natToDigits]
  split <;> simp

theorem natToDigits_digits (n : ℕ) : ∀ c ∈ natToDigits n, isDigitCh c = true := by
  induction n using natToDigits.induct with
  | case1 n h =>
    rw [natToDigits, dif_pos h]
    intro c hc
    simp only [List.mem_singleton] at hc
    subst hc
    exact isDigitCh_digitCh h
  | case2 n h ih =>
    rw [natToDigits, dif_neg h]
    intro c hc
    rcases List.mem_append.mp hc with h1 | h2
    · exact ih c h1
    · simp only [List.mem_singleton] at h2
      subst h2
      exact isDigitCh_digitCh (Nat.mod_lt _ (by omega))

theorem digitsToNat_natToDigits (n : ℕ) : digitsToNat (natToDigits n) = n := by
  induction n using natToDigits.induct with
  | case1 n h =>
    rw [natToDigits, dif_pos h]
    simp [digitsToNat, digitVal_digitCh h]
  | case2 n h ih =>
    rw [natToDigits, dif_neg h]
    rw [digitsToNat_append_singleton, ih, digitVal_digitCh (Nat.mod_lt _ (by omega))]
    omega

theorem natToDigits_length_le {n k : ℕ} (h : n < 10 ^ k) (hk : 1 ≤ k) :
    (natToDigits n).length ≤ k := by
  induction n using natToDigits.induct generalizing k with
  | case1 n hn =>
    rw [natToDigits, dif_pos hn]
    simpa using hk
  | case2 n hn ih =>
    rw [natToDigits, dif_neg hn]
    have hk2 : 2 ≤ k := by
      by_contra hcon
      interval_cases k <;> omega
    have hdiv : n / 10 < 10 ^ (k - 1) := by
      have : 10 ^ k = 10 ^ (k - 1) * 10 := by
        rw [← pow_succ]
        congr 1
        omega
      rw [this] at h
      exact Nat.div_lt_of_lt_mul (by omega)
    have := ih hdiv (by omega)
    simp only [List.length_append, List.length_singleton]
    omega

/-! ## Parsing numerals to rationals

The function `parseRat` models the float coercion performed by `pd.read_csv`
and by `pd.to_numeric` with coercing errors: an optional minus sign, an integer digit
string, and an optional fractional digit string; any other shape coerces to
null (`none`, modelling `NaN`). -/

/-- Split a character list into its longest digit-prefix and the rest. -/
def spanDigits : List Char → List Char × List Char
  | [] => ([], [])
  | c :: cs =>
    if isDigitCh c then
      let p := spanDigits cs
      (c :: p.1, p.2)
    else ([], c :: cs)

theorem spanDigits_append (l r : List Char) (hl : ∀ c ∈ l, isDigitCh c = true)
    (hr : ∀ c, r.head? = some c → isDigitCh c = false) :
    spanDigits (l ++ r) = (l, r) := by
  induction l with
  | nil =>
    cases r with
    | nil => rfl
    | cons c cs =>
      have := hr c rfl
      simp [spanDigits, this]
  | cons c cs ih =>
    have hc := hl c (by simp)
    have hrest : ∀ x ∈ cs, isDigitCh x = true := fun x hx => hl x (by simp [hx])
    simp [spanDigits, hc, ih hrest]

/-- Parse an unsigned decimal numeral (digits, optionally a dot and more
digits) as an exact rational. -/
def parseUnsigned (cs : List Char) : Option ℚ :=
  let p := spanDigits cs
  match p.2 with
  | [] => if p.1.isEmpty then none else some ((digitsToNat p.1 : ℚ))
  | d :: rest2 =>
    if d = '.' then
      let p2 := spanDigits rest2
      match p2.2 with
      | [] =>
        if p.1.isEmpty && p2.1.isEmpty then none
        else some (Rat.divInt ((digitsToNat p.1 : ℤ) * 10 ^ p2.1.length + (digitsToNat p2.1 : ℤ))
            (10 ^ p2.1.length))
      | _ => none
    else none

/-- Numeric coercion of one CSV cell: model of the pandas float parser. -/
def parseRat (s : String) : Option ℚ :=
  match s.data with
  | [] => none
  | c :: rest =>
    if c = '-' then (parseUnsigned rest).map (fun q => -q)
    else parseUnsigned (c :: rest)

/-! ## Data model

`RawRow` is one row of the input CSV as text (restricted to the six
recognized columns); `Record` is one row of the loaded dataframe, where all
three numeric fields are known to be non-null. -/

/-- A raw CSV row: the six recognized columns, as text cells. -/
structure RawRow where
  name : String
  country_long : String
  primary_fuel : String
  capacity_mw : String
  latitude : String
  longitude : String
deriving DecidableEq

/-- A row after numeric coercion: numeric cells are `Option ℚ`, `none`
modelling `NaN`. -/
structure CoercedRow where
  name : String
  country_long : String
  primary_fuel : String
  capacity_mw : Option ℚ
  latitude : Option ℚ
  longitude : Option ℚ
deriving DecidableEq

/-- A loaded power-plant record (post-`dropna`): all numeric fields present. -/
structure Record where
  name : String
  country_long : String
  primary_fuel : String
  capacity_mw : ℚ
  latitude : ℚ
  longitude : ℚ
deriving DecidableEq

/-- Numeric coercion of one raw row: the `read_csv` float columns plus the
coercing `pd.to_numeric` applied to the capacity column (line 14). -/
def coerceRow (r : RawRow) : CoercedRow :=
  { name := r.name
    country_long := r.country_long
    primary_fuel := r.primary_fuel
    capacity_mw := parseRat r.capacity_mw
    latitude := parseRat r.latitude
    longitude := parseRat r.longitude }

/-- Model of `load_data` (lines 10–15): coerce `capacity_mw`, then drop every
row with a null latitude, longitude or capacity; the surviving rows are the
loaded records, in input order. -/
def load_data (rows : List RawRow) : List Record :=
  (rows.map coerceRow).filterMap fun r =>
    match r.capacity_mw, r.latitude, r.longitude with
    | some c, some la, some lo =>
      some ⟨r.name, r.country_long, r.primary_fuel, c, la, lo⟩
    | _, _, _ => none

/-- Does a raw row survive the loader (all three numeric cells parse)? -/
def rowKept (r : RawRow) : Bool :=
  (parseRat r.capacity_mw).isSome && (parseRat r.latitude).isSome
    && (parseRat r.longitude).isSome

/-- The loader as the specification words it: keep exactly the rows whose
latitude, longitude and capacity are non-null, in original order. -/
def loadSpec (rows : List RawRow) : List Record :=
  (rows.filter rowKept).map fun r =>
    ⟨r.name, r.country_long, r.primary_fuel, (parseRat r.capacity_mw).getD 0,
      (parseRat r.latitude).getD 0, (parseRat r.longitude).getD 0⟩

/-! ## Filter engine -/

/-- Model of `region_df` (line 31): the boolean-mask filter keeping rows whose
country_long equals the selected country and whose primary_fuel is in the
selected fuel list. -/
def region_df (df : List Record) (country : String) (fuels : List String) :
    List Record :=
  df.filter fun r => r.country_long == country && fuels.contains r.primary_fuel

/-! ## Aggregator -/

/-- Model of the capacity column sum over `region_df` (line 46). -/
def total_mw (recs : List Record) : ℚ := (recs.map Record.capacity_mw).sum

/-- The distinct fuels of a record list. -/
def fuelList (recs : List Record) : List String :=
  (recs.map Record.primary_fuel).dedup

/-- The group keys produced by grouping on primary_fuel (pandas sorts group
keys ascending). -/
def fuelKeys (recs : List Record) : List String :=
  List.insertionSort (· ≤ ·) (fuelList recs)

/-- The summed capacity of one fuel group. -/
def capacityFor (recs : List Record) (fuel : String) : ℚ :=
  ((recs.filter fun r => r.primary_fuel == fuel).map Record.capacity_mw).sum

/-- Ordering by value (the summed capacity), largest first. -/
def byValueDesc (a b : String × ℚ) : Prop := b.2 ≤ a.2

instance : DecidableRel byValueDesc := fun a b =>
  inferInstanceAs (Decidable (b.2 ≤ a.2))

instance : IsTotal (String × ℚ) byValueDesc := ⟨fun a b => le_total b.2 a.2⟩

instance : IsTrans (String × ℚ) byValueDesc :=
  ⟨fun _ _ _ hab hbc => le_trans hbc hab⟩

/-- Model of `capacity_stats` (line 36): group the filtered rows by
primary_fuel, sum capacity_mw per group, and sort the sums descending. -/
def capacity_stats (recs : List Record) : List (String × ℚ) :=
  List.insertionSort byValueDesc ((fuelKeys recs).map fun k => (k, capacityFor recs k))

/-- The KPI block (lines 45–49): rendered only when `region_df` is non-empty;
the "Main Source" KPI reads `capacity_stats.index[0]`, whose potential
failure on an empty summary is modelled by `Option.none` via `head?`. -/
def kpi_block (recs : List Record) : Option (ℚ × ℕ × String) :=
  if recs.isEmpty then none
  else ((capacity_stats recs).head?).map fun e => (total_mw recs, recs.length, e.1)

/-- Mean of a pandas numeric series: `NaN` (modelled `none`) when empty. -/
def seriesMean (l : List ℚ) : Option ℚ :=
  if l.isEmpty then none else some (l.sum / l.length)

/-- Model of line 52: the means of the latitude and longitude columns of
`region_df`, computed unconditionally and passed to `folium.Map` as the map
center. -/
def map_center (recs : List Record) : Option ℚ × Option ℚ :=
  (seriesMean (recs.map Record.latitude), seriesMean (recs.map Record.longitude))

/-! ## Presentation adapter: fuel colors -/

/-- The fuel→color dict (line 61). -/
def colors : List (String × String) :=
  [("Nuclear", "purple"), ("Coal", "black"), ("Hydro", "blue"),
   ("Solar", "orange"), ("Gas", "red"), ("Wind", "green")]

/-- Model of the dict lookup on `colors` with the gray default (line 71). -/
def colorKey (fuel : String) : String :=
  ((colors.find? fun p => p.1 == fuel).map Prod.snd).getD "gray"

/-! ## Aggregator lemmas -/

theorem sum_map_add_split {α : Type} (l : List α) (f g : α → ℚ) :
    (l.map fun x => f x + g x).sum = (l.map f).sum + (l.map g).sum := by
  induction l with
  | nil => simp
  | cons x xs ih => simp [ih]; ring

theorem sum_map_ite_single (keys : List String) (x : String) (c : ℚ)
    (hnd : keys.Nodup) (hx : x ∈ keys) :
    (keys.map fun k => if x = k then c else 0).sum = c := by
  induction keys with
  | nil => cases hx
  | cons k ks ih =>
    rcases List.mem_cons.mp hx with h | h
    · subst h
      have hnot : x ∉ ks := (List.nodup_cons.mp hnd).1
      have : (ks.map fun k => if x = k then c else 0).sum = 0 := by
        rw [List.sum_eq_zero]
        intro q hq
        rcases List.mem_map.mp hq with ⟨k', hk', hval⟩
        have : x ≠ k' := fun hxy => hnot (hxy ▸ hk')
        simp [← hval, this]
      simp [this]
    · have hnd' := (List.nodup_cons.mp hnd).2
      have hne : x ≠ k := by
        rintro rfl
        exact (List.nodup_cons.mp hnd).1 h
      simp [hne, ih hnd' h]

theorem capacityFor_cons (r : Record) (t : List Record) (k : String) :
    capacityFor (r :: t) k =
      (if r.primary_fuel = k then r.capacity_mw else 0) + capacityFor t k := by
  by_cases h : r.primary_fuel = k
  · simp [capacityFor, List.filter_cons, h]
  · have : (r.primary_fuel == k) = false := beq_eq_false_iff_ne.mpr h
    simp [capacityFor, List.filter_cons, this, h]

theorem sum_capacityFor (keys : List String) (recs : List Record)
    (hnd : keys.Nodup) (hall : ∀ r ∈ recs, r.primary_fuel ∈ keys) :
    (keys.map fun k => capacityFor recs k).sum = total_mw recs := by
  induction recs with
  | nil =>
    have : (keys.map fun k => capacityFor [] k).sum = 0 := by
      rw [List.sum_eq_zero]
      intro q hq
      rcases List.mem_map.mp hq with ⟨k, _, hval⟩
      simpa [capacityFor] using hval.symm
    simp [this, total_mw]
  | cons r t ih =>
    have hmem : r.primary_fuel ∈ keys := hall r (by simp)
    have hall' : ∀ x ∈ t, x.primary_fuel ∈ keys := fun x hx => hall x (by simp [hx])
    have step : (keys.map fun k => capacityFor (r :: t) k).sum =
        (keys.map fun k => if r.primary_fuel = k then r.capacity_mw else 0).sum
          + (keys.map fun k => capacityFor t k).sum := by
      have hfun : (fun k => capacityFor (r :: t) k) =
          fun k => (if r.primary_fuel = k then r.capacity_mw else 0) + capacityFor t k := by
        funext k
        rw [capacityFor_cons]
      rw [hfun, sum_map_add_split]
    rw [step, sum_map_ite_single keys _ _ hnd hmem, ih hall']
    simp [total_mw]

theorem fuelKeys_nodup (recs : List Record) : (fuelKeys recs).Nodup :=
  ((List.perm_insertionSort _ _).nodup_iff).mpr (List.nodup_dedup _)

theorem mem_fuelKeys {recs : List Record} {f : String} :
    f ∈ fuelKeys recs ↔ f ∈ recs.map Record.primary_fuel := by
  unfold fuelKeys fuelList
  rw [(List.perm_insertionSort _ _).mem_iff, List.mem_dedup]

theorem capacity_stats_perm (recs : List Record) :
    List.Perm (capacity_stats recs)
      ((fuelKeys recs).map fun k => (k, capacityFor recs k)) :=
  List.perm_insertionSort _ _

theorem capacity_stats_sum (recs : List Record) :
    ((capacity_stats recs).map Prod.snd).sum = total_mw recs := by
  have hperm := (capacity_stats_perm recs).map Prod.snd
  rw [hperm.sum_eq, List.map_map]
  have : (Prod.snd ∘ fun k => (k, capacityFor recs k)) = fun k => capacityFor recs k := rfl
  rw [this]
  exact sum_capacityFor _ _ (fuelKeys_nodup recs)
    (fun r hr => mem_fuelKeys.mpr (List.mem_map.mpr ⟨r, hr, rfl⟩))

theorem capacity_stats_sorted (recs : List Record) :
    (capacity_stats recs).Sorted byValueDesc :=
  List.sorted_insertionSort _ _

theorem capacity_stats_ne_nil {recs : List Record} (h : recs ≠ []) :
    capacity_stats recs ≠ [] := by
  rcases List.exists_mem_of_ne_nil _ h with ⟨r, hr⟩
  have hk : r.primary_fuel ∈ fuelKeys recs :=
    mem_fuelKeys.mpr (List.mem_map.mpr ⟨r, hr, rfl⟩)
  have hmem : (r.primary_fuel, capacityFor recs r.primary_fuel) ∈
      (fuelKeys recs).map fun k => (k, capacityFor recs k) :=
    List.mem_map.mpr ⟨r.primary_fuel, hk, rfl⟩
  exact List.ne_nil_of_mem ((capacity_stats_perm recs).mem_iff.mpr hmem)

/-! ## CSV export (lines 92–94)

Model of the index-free CSV export of `region_df` and its UTF-8 encoding: a header row of the
recognized columns, then one row per record in dataframe order, cells
escaped with minimal quoting, floats rendered as decimal numerals. -/

/-- The recognized columns, in dataframe order. -/
def headerCells : List String :=
  ["name", "country_long", "primary_fuel", "capacity_mw", "latitude", "longitude"]

/-- Smallest exponent `k ≤ d` with `d ∣ 10 ^ k` (and `d` as a fallback):
the number of decimal places needed to render a rational with denominator
`d` exactly. -/
def decExp (d : ℕ) : ℕ :=
  (((List.range (d + 1)).find? fun k => decide (d ∣ 10 ^ k)).getD d)

/-- Big-endian digits of `n`, left-padded with zeros to `k` places. -/
def padDigits (k n : ℕ) : List Char :=
  List.replicate (k - (natToDigits n).length) '0' ++ natToDigits n

/-- Decimal rendering of a non-negative rational (model of the pandas float
formatter, which writes a decimal numeral that parses back to the same
value). -/
def numFormatNN (q : ℚ) : List Char :=
  let k := decExp q.den
  let m := q.num.toNat * 10 ^ k / q.den
  if k = 0 then natToDigits m
  else natToDigits (m / 10 ^ k) ++ '.' :: padDigits k (m % 10 ^ k)

/-- Decimal rendering of a rational, with sign. -/
def numFormat (q : ℚ) : List Char :=
  if q < 0 then '-' :: numFormatNN (-q) else numFormatNN q

/-- One numeric CSV cell. -/
def numCell (q : ℚ) : String := String.mk (numFormat q)

/-- Does this cell need quoting under csv minimal quoting? -/
def needsQuoting (s : String) : Bool :=
  s.data.any fun c => c = ',' || c = '"' || c = '\n' || c = '\r'

/-- Double every quote character (the csv quote-escaping rule). -/
def escQuote : List Char → List Char
  | [] => []
  | c :: cs => if c = '"' then '"' :: '"' :: escQuote cs else c :: escQuote cs

/-- One CSV cell, quoted iff it contains a special character. -/
def escapeCell (s : String) : List Char :=
  if needsQuoting s then '"' :: (escQuote s.data ++ ['"']) else s.data

/-- One CSV row: comma-separated escaped cells, newline-terminated. -/
def rowChars : List String → List Char
  | [] => ['\n']
  | [c] => escapeCell c ++ ['\n']
  | c :: cs => escapeCell c ++ ',' :: rowChars cs

/-- The six cells of one exported record. -/
def recordCells (r : Record) : List String :=
  [r.name, r.country_long, r.primary_fuel, numCell r.capacity_mw,
   numCell r.latitude, numCell r.longitude]

/-- Model of the index-free CSV export of `region_df` (line 93): header row
then record rows. -/
def to_csv (recs : List Record) : String :=
  String.mk (rowChars headerCells ++ (recs.map fun r => rowChars (recordCells r)).flatten)

/-- Model of the UTF-8 encoding of the exported text (line 93). -/
def csvBytes (recs : List Record) : ByteArray := (to_csv recs).toUTF8

/-! ## CSV parsing

A standard csv reader (quote-aware cell splitter), used to state what the
exported bytes contain and to settle the round-trip claim. -/

/-- Scanner state of the csv reader: outside quotes, inside a quoted cell,
or just past a quote character inside a quoted cell. -/
inductive CsvMode
  | outQ
  | inQ
  | afterQ
deriving DecidableEq

/-- Quote-aware CSV splitter: one character per step. Arguments: remaining
input, scanner state, current cell, current row, completed rows. -/
def parseRowsAux : List Char → CsvMode → List Char → List String →
    List (List String) → List (List String)
  | [], .inQ, cur, row, acc => acc ++ [row ++ [String.mk cur]]
  | [], .afterQ, cur, row, acc => acc ++ [row ++ [String.mk cur]]
  | [], .outQ, cur, row, acc =>
    if cur.isEmpty && row.isEmpty then acc else acc ++ [row ++ [String.mk cur]]
  | c :: rest, .inQ, cur, row, acc =>
    if c = '"' then parseRowsAux rest .afterQ cur row acc
    else parseRowsAux rest .inQ (cur ++ [c]) row acc
  | c :: rest, .afterQ, cur, row, acc =>
    if c = '"' then parseRowsAux rest .inQ (cur ++ ['"']) row acc
    else if c = ',' then parseRowsAux rest .outQ [] (row ++ [String.mk cur]) acc
    else if c = '\n' then parseRowsAux rest .outQ [] [] (acc ++ [row ++ [String.mk cur]])
    else parseRowsAux rest .outQ (cur ++ [c]) row acc
  | c :: rest, .outQ, cur, row, acc =>
    if c = '"' then parseRowsAux rest .inQ cur row acc
    else if c = ',' then parseRowsAux rest .outQ [] (row ++ [String.mk cur]) acc
    else if c = '\n' then parseRowsAux rest .outQ [] [] (acc ++ [row ++ [String.mk cur]])
    else parseRowsAux rest .outQ (cur ++ [c]) row acc

/-- Split CSV text into rows of cells. -/
def parseRows (s : String) : List (List String) :=
  parseRowsAux s.data .outQ [] [] []

/-- Rebuild a record from one parsed CSV data row. -/
def cellsToRecord (cells : List String) : Option Record :=
  match cells with
  | [n, co, fu, ca, la, lo] =>
    match parseRat ca, parseRat la, parseRat lo with
    | some c, some l1, some l2 => some ⟨n, co, fu, c, l1, l2⟩
    | _, _, _ => none
  | _ => none

/-- Rebuild all records from parsed CSV data rows. -/
def recordsFromRows : List (List String) → Option (List Record)
  | [] => some []
  | r :: rs =>
    match cellsToRecord r, recordsFromRows rs with
    | some rec, some recs => some (rec :: recs)
    | _, _ => none

/-- Parse exported CSV text back into records (header must match). -/
def parseCsv (s : String) : Option (List Record) :=
  match parseRows s with
  | [] => none
  | h :: rows => if h = headerCells then recordsFromRows rows else none

/-! ## CSV round-trip: the splitter inverts the renderer -/

theorem mk_data (s : String) : String.mk s.data = s := rfl

theorem parseRowsAux_escQuote (l rest cur : List Char) (row : List String)
    (acc : List (List String)) :
    parseRowsAux (escQuote l ++ '"' :: rest) .inQ cur row acc =
      parseRowsAux rest .afterQ (cur ++ l) row acc := by
  induction l generalizing cur with
  | nil => simp [escQuote, parseRowsAux]
  | cons c cs ih =>
    by_cases hc : c = '"'
    · subst hc
      simp [escQuote, parseRowsAux, ih, List.append_assoc]
    · simp [escQuote, parseRowsAux, hc, ih, List.append_assoc]

theorem parseRowsAux_rawCell (l rest cur : List Char) (row : List String)
    (acc : List (List String))
    (hl : ∀ c ∈ l, c ≠ '"' ∧ c ≠ ',' ∧ c ≠ '\n') :
    parseRowsAux (l ++ rest) .outQ cur row acc =
      parseRowsAux rest .outQ (cur ++ l) row acc := by
  induction l generalizing cur with
  | nil => simp
  | cons c cs ih =>
    obtain ⟨h1, h2, h3⟩ := hl c (by simp)
    have hrest : ∀ x ∈ cs, x ≠ '"' ∧ x ≠ ',' ∧ x ≠ '\n' :=
      fun x hx => hl x (by simp [hx])
    simp [parseRowsAux, h1, h2, h3, ih _ hrest, List.append_assoc]

theorem afterQ_eq_outQ_comma (rest cur row acc) :
    parseRowsAux (',' :: rest) .afterQ cur row acc =
      parseRowsAux (',' :: rest) .outQ cur row acc := by
  simp [parseRowsAux]

theorem afterQ_eq_outQ_newline (rest cur row acc) :
    parseRowsAux ('\n' :: rest) .afterQ cur row acc =
      parseRowsAux ('\n' :: rest) .outQ cur row acc := by
  simp [parseRowsAux]

theorem needsQuoting_spec {s : String} (h : needsQuoting s = false) :
    ∀ c ∈ s.data, c ≠ '"' ∧ c ≠ ',' ∧ c ≠ '\n' := by
  intro c hc
  have hfa := List.any_eq_false.mp h c hc
  simp only [Bool.or_eq_true, decide_eq_true_eq, not_or] at hfa
  exact ⟨hfa.1.1.2, hfa.1.1.1, hfa.1.2⟩

theorem parseRowsAux_escapeCell (s : String) (rest cur : List Char)
    (row : List String) (acc : List (List String))
    (h : rest.head? = some ',' ∨ rest.head? = some '\n') :
    parseRowsAux (escapeCell s ++ rest) .outQ cur row acc =
      parseRowsAux rest .outQ (cur ++ s.data) row acc := by
  by_cases hq : needsQuoting s
  · have shape : escapeCell s ++ rest = '"' :: (escQuote s.data ++ '"' :: rest) := by
      simp [escapeCell, hq, List.append_assoc]
    rw [shape]
    rw [show parseRowsAux ('"' :: (escQuote s.data ++ '"' :: rest)) .outQ cur row acc
        = parseRowsAux (escQuote s.data ++ '"' :: rest) .inQ cur row acc by
      simp [parseRowsAux]]
    rw [parseRowsAux_escQuote]
    cases rest with
    | nil => simp at h
    | cons c rs =>
      rcases h with h | h
      · have : c = ',' := by simpa using h
        subst this
        exact afterQ_eq_outQ_comma rs (cur ++ s.data) row acc
      · have : c = '\n' := by simpa using h
        subst this
        exact afterQ_eq_outQ_newline rs (cur ++ s.data) row acc
  · have hq' : needsQuoting s = false := by simpa using hq
    have shape : escapeCell s = s.data := by simp [escapeCell, hq']
    rw [shape]
    exact parseRowsAux_rawCell _ _ _ _ _ (needsQuoting_spec hq')

theorem parseRowsAux_rowChars (cells : List String) (rest : List Char)
    (row : List String) (acc : List (List String)) (h : cells ≠ []) :
    parseRowsAux (rowChars cells ++ rest) .outQ [] row acc =
      parseRowsAux rest .outQ [] [] (acc ++ [row ++ cells]) := by
  induction cells generalizing row with
  | nil => cases h rfl
  | cons c cs ih =>
    cases cs with
    | nil =>
      rw [show rowChars [c] = escapeCell c ++ ['\n'] from rfl]
      rw [List.append_assoc, List.singleton_append]
      rw [parseRowsAux_escapeCell c ('\n' :: rest) [] row acc (Or.inr rfl)]
      simp [parseRowsAux, mk_data]
    | cons c2 cs2 =>
      rw [show rowChars (c :: c2 :: cs2) = escapeCell c ++ ',' :: rowChars (c2 :: cs2)
        from rfl]
      rw [List.append_assoc, List.cons_append]
      rw [parseRowsAux_escapeCell c (',' :: (rowChars (c2 :: cs2) ++ rest)) [] row acc
        (Or.inl rfl)]
      rw [show parseRowsAux (',' :: (rowChars (c2 :: cs2) ++ rest)) .outQ ([] ++ c.data)
          row acc = parseRowsAux (rowChars (c2 :: cs2) ++ rest) .outQ []
          (row ++ [String.mk ([] ++ c.data)]) acc by simp [parseRowsAux]]
      rw [ih _ (by simp)]
      simp [mk_data]

theorem parseRowsAux_flatten (rows : List (List String)) (rest : List Char)
    (acc : List (List String)) (h : ∀ r ∈ rows, r ≠ []) :
    parseRowsAux ((rows.map rowChars).flatten ++ rest) .outQ [] [] acc =
      parseRowsAux rest .outQ [] [] (acc ++ rows) := by
  induction rows generalizing acc with
  | nil => simp
  | cons r rs ih =>
    simp only [List.map_cons, List.flatten_cons, List.append_assoc]
    rw [parseRowsAux_rowChars r _ _ _ (h r (by simp))]
    rw [ih _ (fun x hx => h x (by simp [hx]))]
    simp

theorem recordCells_ne_nil (r : Record) : recordCells r ≠ [] := by
  simp [recordCells]

/-! ## Numeral round-trip: the cell parser inverts the cell formatter -/

theorem data_mk (l : List Char) : (String.mk l).data = l := rfl

theorem dvd_ten_pow_self {d j : ℕ} (h : d ∣ 10 ^ j) : d ∣ 10 ^ d := by
  have h10 : (10 : ℕ) ^ j = 2 ^ j * 5 ^ j := by
    rw [← Nat.mul_pow]
  rw [h10] at h
  rcases Nat.dvd_mul.mp h with ⟨d1, d2, h1, h2, hmul⟩
  rcases (Nat.dvd_prime_pow Nat.prime_two).mp h1 with ⟨a, _, rfl⟩
  rcases (Nat.dvd_prime_pow Nat.prime_five).mp h2 with ⟨b, _, rfl⟩
  subst hmul
  have haa : a ≤ 2 ^ a * 5 ^ b := by
    have h1a : a < 2 ^ a := Nat.lt_two_pow a
    have h2a : 2 ^ a ≤ 2 ^ a * 5 ^ b :=
      Nat.le_mul_of_pos_right _ (pow_pos (by omega) b)
    omega
  have hbb : b ≤ 2 ^ a * 5 ^ b := by
    have h1b : b < 5 ^ b := Nat.lt_pow_self (by omega) b
    have h2b : 5 ^ b ≤ 2 ^ a * 5 ^ b :=
      Nat.le_mul_of_pos_left _ (pow_pos (by omega) a)
    omega
  calc 2 ^ a * 5 ^ b
      ∣ 2 ^ (2 ^ a * 5 ^ b) * 5 ^ (2 ^ a * 5 ^ b) :=
        mul_dvd_mul (pow_dvd_pow 2 haa) (pow_dvd_pow 5 hbb)
    _ = 10 ^ (2 ^ a * 5 ^ b) := by rw [← Nat.mul_pow]

theorem decExp_dvd {d : ℕ} (h : ∃ j, d ∣ 10 ^ j) : d ∣ 10 ^ decExp d := by
  obtain ⟨j, hj⟩ := h
  have hd : d ∣ 10 ^ d := dvd_ten_pow_self hj
  have hsome : (((List.range (d + 1)).find? fun k => decide (d ∣ 10 ^ k))).isSome := by
    rw [List.find?_isSome]
    exact ⟨d, by simp, by simpa using hd⟩
  obtain ⟨k, hk⟩ := Option.isSome_iff_exists.mp hsome
  have hp := List.find?_some hk
  unfold decExp
  rw [hk]
  simpa using hp

theorem digitsToNat_cons_zero (l : List Char) :
    digitsToNat ('0' :: l) = digitsToNat l := rfl

theorem digitsToNat_replicate_zero (z : ℕ) (ds : List Char) :
    digitsToNat (List.replicate z '0' ++ ds) = digitsToNat ds := by
  induction z with
  | zero => simp
  | succ n ih => rw [List.replicate_succ, List.cons_append, digitsToNat_cons_zero, ih]

theorem digitsToNat_padDigits {k n : ℕ} (h : n < 10 ^ k) :
    digitsToNat (padDigits k n) = n := by
  rw [padDigits, digitsToNat_replicate_zero, digitsToNat_natToDigits]

theorem padDigits_length {k n : ℕ} (h : n < 10 ^ k) (hk : 1 ≤ k) :
    (padDigits k n).length = k := by
  have := natToDigits_length_le h hk
  simp only [padDigits, List.length_append, List.length_replicate]
  omega

theorem padDigits_digits (k n : ℕ) : ∀ c ∈ padDigits k n, isDigitCh c = true := by
  intro c hc
  rcases List.mem_append.mp hc with h | h
  · rw [List.eq_of_mem_replicate h]
    rfl
  · exact natToDigits_digits n c h

theorem parseUnsigned_natToDigits (n : ℕ) :
    parseUnsigned (natToDigits n) = some ((n : ℚ)) := by
  have hspan : spanDigits (natToDigits n) = (natToDigits n, []) := by
    simpa using spanDigits_append (natToDigits n) [] (natToDigits_digits n) (by simp)
  simp [parseUnsigned, hspan, List.isEmpty_iff, natToDigits_ne_nil n,
    digitsToNat_natToDigits]

theorem parseUnsigned_frac (a b k : ℕ) (hk : 1 ≤ k) (hb : b < 10 ^ k) :
    parseUnsigned (natToDigits a ++ '.' :: padDigits k b) =
      some (Rat.divInt ((a : ℤ) * 10 ^ k + (b : ℤ)) (10 ^ k)) := by
  have hspan1 : spanDigits (natToDigits a ++ '.' :: padDigits k b)
      = (natToDigits a, '.' :: padDigits k b) := by
    apply spanDigits_append _ _ (natToDigits_digits a)
    intro c hc
    simp only [List.head?_cons, Option.some.injEq] at hc
    rw [← hc]
    rfl
  have hspan2 : spanDigits (padDigits k b) = (padDigits k b, []) := by
    simpa using spanDigits_append (padDigits k b) [] (padDigits_digits k b) (by simp)
  have hne : (natToDigits a).isEmpty = false := by
    simp [List.isEmpty_iff, natToDigits_ne_nil a]
  simp [parseUnsigned, hspan1, hspan2, hne, digitsToNat_natToDigits,
    digitsToNat_padDigits hb, padDigits_length hb hk]

theorem parseUnsigned_numFormatNN (q : ℚ) (hq : 0 ≤ q)
    (hdvd : q.den ∣ 10 ^ decExp q.den) :
    parseUnsigned (numFormatNN q) = some q := by
  simp only [numFormatNN]
  set k := decExp q.den with hk
  set n := q.num.toNat with hn
  set m := n * 10 ^ k / q.den with hm
  have hden0 : 0 < q.den := q.pos
  have hdvd' : q.den ∣ n * 10 ^ k := Dvd.dvd.mul_left hdvd n
  have hmd : m * q.den = n * 10 ^ k := Nat.div_mul_cancel hdvd'
  have hnum : (n : ℤ) = q.num := Int.toNat_of_nonneg (Rat.num_nonneg.mpr hq)
  rcases Nat.eq_zero_or_pos k with hk0 | hkpos
  · have hden1 : q.den = 1 := Nat.dvd_one.mp (by simpa [hk0] using hdvd)
    have hmn : m = n := by simp [hm, hk0, hden1]
    rw [if_pos hk0, hmn, parseUnsigned_natToDigits]
    congr 1
    have hqn : (q.num : ℚ) = q := (Rat.den_eq_one_iff q).mp hden1
    rw [← hqn, ← hnum]
    push_cast
    rfl
  · rw [if_neg (by omega)]
    rw [parseUnsigned_frac _ _ _ hkpos (Nat.mod_lt _ (pow_pos (by norm_num) k))]
    congr 1
    have hnat : m / 10 ^ k * 10 ^ k + m % 10 ^ k = m := by
      have h0 := Nat.div_add_mod m (10 ^ k)
      rw [Nat.mul_comm] at h0
      exact h0
    have hsum : ((m / 10 ^ k : ℕ) : ℤ) * 10 ^ k + ((m % 10 ^ k : ℕ) : ℤ) = (m : ℤ) := by
      exact_mod_cast congrArg (Nat.cast : ℕ → ℤ) hnat
    rw [hsum, Rat.divInt_eq_div]
    have hden_ne : (q.den : ℚ) ≠ 0 := Nat.cast_ne_zero.mpr (by omega)
    have hpow_ne : ((10 : ℚ)) ^ k ≠ 0 := pow_ne_zero _ (by norm_num)
    have hcast : (m : ℚ) * (q.den : ℚ) = (q.num : ℚ) * (10 : ℚ) ^ k := by
      have hc := congrArg (Nat.cast : ℕ → ℚ) hmd
      push_cast at hc
      rw [hc, ← hnum]
      push_cast
      ring
    push_cast
    rw [div_eq_iff hpow_ne]
    calc (m : ℚ) = ((q.num : ℚ) * (10 : ℚ) ^ k) / (q.den : ℚ) := by
          rw [eq_div_iff hden_ne]
          exact hcast
      _ = ((q.num : ℚ) / (q.den : ℚ)) * (10 : ℚ) ^ k := by ring
      _ = q * 10 ^ k := by rw [Rat.num_div_den]

theorem natToDigits_head (n : ℕ) :
    ∃ c tl, natToDigits n = c :: tl ∧ isDigitCh c = true := by
  rcases List.exists_cons_of_ne_nil (natToDigits_ne_nil n) with ⟨c, tl, h⟩
  exact ⟨c, tl, h, natToDigits_digits n c (h ▸ List.mem_cons_self c tl)⟩

theorem numFormatNN_head (q : ℚ) :
    ∃ c tl, numFormatNN q = c :: tl ∧ isDigitCh c = true := by
  simp only [numFormatNN]
  split
  · exact natToDigits_head _
  · rcases natToDigits_head (q.num.toNat * 10 ^ decExp q.den / q.den / 10 ^ decExp q.den)
      with ⟨c, tl, h, hd⟩
    exact ⟨c, tl ++ '.' :: padDigits _ _, by rw [h, List.cons_append], hd⟩

theorem parseRat_numCell (q : ℚ) (hdd : ∃ j, q.den ∣ 10 ^ j) :
    parseRat (numCell q) = some q := by
  have hdvd : q.den ∣ 10 ^ decExp q.den := decExp_dvd hdd
  by_cases hneg : q < 0
  · have h1 : numCell q = String.mk ('-' :: numFormatNN (-q)) := by
      simp [numCell, numFormat, hneg]
    have hq' : 0 ≤ -q := by linarith
    have hdvd' : (-q).den ∣ 10 ^ decExp ((-q).den) := by
      rw [Rat.neg_den]
      exact hdvd
    rw [h1]
    simp [parseRat, data_mk, parseUnsigned_numFormatNN (-q) hq' hdvd']
  · push_neg at hneg
    have h1 : numCell q = String.mk (numFormatNN q) := by
      simp [numCell, numFormat, not_lt.mpr hneg]
    rcases numFormatNN_head q with ⟨c, tl, hct, hcd⟩
    have hcne : c ≠ '-' := by
      intro hcon
      rw [hcon] at hcd
      exact absurd hcd (by decide)
    rw [h1, hct]
    simp only [parseRat, data_mk, if_neg hcne]
    rw [← hct]
    exact parseUnsigned_numFormatNN q hneg hdvd

theorem divInt_ten_pow_den_dvd (A : ℤ) (L : ℕ) :
    (Rat.divInt A (10 ^ L)).den ∣ 10 ^ L := by
  have h := Rat.den_dvd A ((10 : ℤ) ^ L)
  have h2 : ((Rat.divInt A ((10 : ℤ) ^ L)).den : ℤ) ∣ ((10 ^ L : ℕ) : ℤ) := by
    push_cast
    exact h
  exact_mod_cast h2

theorem parseUnsigned_decden {cs : List Char} {q : ℚ}
    (h : parseUnsigned cs = some q) : ∃ j, q.den ∣ 10 ^ j := by
  simp only [parseUnsigned] at h
  split at h
  · split at h
    · exact absurd h (by simp)
    · have hq := Option.some.inj h
      exact ⟨0, by rw [← hq]; simp⟩
  · split at h
    · split at h
      · split at h
        · exact absurd h (by simp)
        · have hq := Option.some.inj h
          exact ⟨_, hq ▸ divInt_ten_pow_den_dvd _ _⟩
      · exact absurd h (by simp)
    · exact absurd h (by simp)

theorem parseRat_decden {s : String} {q : ℚ} (h : parseRat s = some q) :
    ∃ j, q.den ∣ 10 ^ j := by
  unfold parseRat at h
  split at h
  · exact absurd h (by simp)
  · split at h
    · rw [Option.map_eq_some'] at h
      obtain ⟨q0, hq0, hneg⟩ := h
      obtain ⟨j, hj⟩ := parseUnsigned_decden hq0
      refine ⟨j, ?_⟩
      rw [← hneg, Rat.neg_den]
      exact hj
    · exact parseUnsigned_decden h

theorem parseRows_to_csv (recs : List Record) :
    parseRows (to_csv recs) = headerCells :: recs.map recordCells := by
  unfold parseRows to_csv
  have hd : (String.mk (rowChars headerCells
      ++ (recs.map fun r => rowChars (recordCells r)).flatten)).data
      = ((headerCells :: recs.map recordCells).map rowChars).flatten ++ [] := by
    simp [List.map_map]
    rfl
  rw [hd]
  rw [parseRowsAux_flatten _ _ _ ?hne]
  · simp [parseRowsAux]
  case hne =>
    intro r hr
    rcases List.mem_cons.mp hr with h | h
    · subst h
      simp [headerCells]
    · rcases List.mem_map.mp h with ⟨x, _, hx⟩
      exact hx ▸ recordCells_ne_nil x

/-! ## Loader lemmas -/

theorem load_data_mem {rows : List RawRow} {r : Record} (hr : r ∈ load_data rows) :
    ∃ raw ∈ rows, parseRat raw.capacity_mw = some r.capacity_mw ∧
      parseRat raw.latitude = some r.latitude ∧
      parseRat raw.longitude = some r.longitude ∧
      raw.name = r.name ∧ raw.country_long = r.country_long ∧
      raw.primary_fuel = r.primary_fuel := by
  unfold load_data at hr
  rw [List.mem_filterMap] at hr
  obtain ⟨cr, hcr, hmatch⟩ := hr
  rw [List.mem_map] at hcr
  obtain ⟨raw, hraw, rfl⟩ := hcr
  refine ⟨raw, hraw, ?_⟩
  simp only [coerceRow] at hmatch
  rcases hc : parseRat raw.capacity_mw with _ | c
  · rw [hc] at hmatch
    exact absurd hmatch (by simp)
  · rcases hl : parseRat raw.latitude with _ | la
    · rw [hc, hl] at hmatch
      exact absurd hmatch (by simp)
    · rcases ho : parseRat raw.longitude with _ | lo
      · rw [hc, hl, ho] at hmatch
        exact absurd hmatch (by simp)
      · rw [hc, hl, ho] at hmatch
        have hr2 := Option.some.inj hmatch
        subst hr2
        exact ⟨by simpa using hc, by simpa using hl, by simpa using ho, rfl, rfl, rfl⟩

theorem load_data_cons (raw : RawRow) (rest : List RawRow) :
    load_data (raw :: rest) =
      (match parseRat raw.capacity_mw, parseRat raw.latitude, parseRat raw.longitude with
        | some c, some la, some lo =>
          [(⟨raw.name, raw.country_long, raw.primary_fuel, c, la, lo⟩ : Record)]
        | _, _, _ => []) ++ load_data rest := by
  simp only [load_data, List.map_cons, List.filterMap_cons, coerceRow]
  rcases parseRat raw.capacity_mw with _ | c <;>
    rcases parseRat raw.latitude with _ | la <;>
      rcases parseRat raw.longitude with _ | lo <;> simp

theorem loadSpec_cons (raw : RawRow) (rest : List RawRow) :
    loadSpec (raw :: rest) =
      (if rowKept raw then
        [(⟨raw.name, raw.country_long, raw.primary_fuel, (parseRat raw.capacity_mw).getD 0,
          (parseRat raw.latitude).getD 0, (parseRat raw.longitude).getD 0⟩ : Record)]
       else []) ++ loadSpec rest := by
  simp only [loadSpec, List.filter_cons]
  by_cases h : rowKept raw <;> simp [h]

theorem load_data_eq_loadSpec (rows : List RawRow) : load_data rows = loadSpec rows := by
  induction rows with
  | nil => rfl
  | cons raw rest ih =>
    rw [load_data_cons, loadSpec_cons, ih]
    congr 1
    rcases hc : parseRat raw.capacity_mw with _ | c <;>
      rcases hl : parseRat raw.latitude with _ | la <;>
        rcases ho : parseRat raw.longitude with _ | lo <;>
          simp [rowKept, hc, hl, ho]

/-! ## Record cells round-trip -/

theorem cellsToRecord_recordCells (r : Record)
    (h1 : ∃ j, r.capacity_mw.den ∣ 10 ^ j)
    (h2 : ∃ j, r.latitude.den ∣ 10 ^ j)
    (h3 : ∃ j, r.longitude.den ∣ 10 ^ j) :
    cellsToRecord (recordCells r) = some r := by
  simp [recordCells, cellsToRecord, parseRat_numCell _ h1, parseRat_numCell _ h2,
    parseRat_numCell _ h3]

theorem recordsFromRows_ok {recs : List Record}
    (h : ∀ r ∈ recs, cellsToRecord (recordCells r) = some r) :
    recordsFromRows (recs.map recordCells) = some recs := by
  induction recs with
  | nil => rfl
  | cons r rs ih =>
    simp [recordsFromRows, h r (by simp), ih (fun x hx => h x (by simp [hx]))]

/-! ## Sample data (used to instantiate hypotheses at concrete inputs) -/

/-- Sample record: a Coal plant in India, 100 MW. -/
def sampleCoal : Record := ⟨"Plant A", "India", "Coal", 100, 20, 77⟩

/-- Sample record: a Solar plant in India, 50 MW. -/
def sampleSolar : Record := ⟨"Plant B", "India", "Solar", 50, 21, 78⟩

/-- Sample record: a second Coal plant in India, 30 MW. -/
def sampleSmall : Record := ⟨"Plant C", "India", "Coal", 30, 22, 79⟩

/-- A raw CSV row with a negative capacity and valid coordinates. -/
def negRow : RawRow := ⟨"Neg", "India", "Coal", "-1", "10", "20"⟩

/-- The record `load_data` produces from `negRow`. -/
def negRec : Record := ⟨"Neg", "India", "Coal", -1, 10, 20⟩

/-- A raw CSV row with a well-formed positive capacity. -/
def goodRow : RawRow := ⟨"Good", "India", "Coal", "7.5", "10", "20"⟩

/-- The record `load_data` produces from `goodRow`. -/
def goodRec : Record := ⟨"Good", "India", "Coal", 15 / 2, 10, 20⟩

/-! ## Claims -/

/-- C1: the filter returns exactly the records of the dataset whose
`country_long` equals the selected country and whose `primary_fuel` is among
the selected fuels (hence a sub-list of the dataset); an empty fuel
selection yields the empty result, and a country matching no record yields
the empty result rather than an error. -/
theorem c1_filter_engine (df : List Record) (country : String) (fuels : List String) :
    (region_df df country fuels).Sublist df ∧
    (∀ r, r ∈ region_df df country fuels ↔
      r ∈ df ∧ r.country_long = country ∧ r.primary_fuel ∈ fuels) ∧
    region_df df country [] = [] ∧
    ((∀ r ∈ df, r.country_long ≠ country) → region_df df country fuels = []) := by
  refine ⟨List.filter_sublist _, ?_, ?_, ?_⟩
  · intro r
    simp [region_df, List.mem_filter, and_assoc]
  · simp [region_df]
  · intro h
    simp only [region_df, List.filter_eq_nil_iff]
    intro r hr
    simp [h r hr]

/-- Witness for C1 at a concrete dataset. -/
theorem c1_filter_engine_witness :
    sampleCoal ∈ region_df [sampleCoal] "India" ["Coal"] ∧
    region_df [sampleCoal] "India" [] = [] := by
  constructor
  · exact ((c1_filter_engine [sampleCoal] "India" ["Coal"]).2.1 sampleCoal).mpr
      ⟨by simp, rfl, by simp [sampleCoal]⟩
  · exact (c1_filter_engine [sampleCoal] "India" []).2.2.1

/-- C2: `capacity_stats` groups by `primary_fuel` (one entry per distinct
fuel, whose value is the capacity sum of that group), its output is sorted
non-increasing by summed capacity, and the capacity total is preserved by
the grouping. -/
theorem c2_summarize_by_fuel (recs : List Record) :
    (capacity_stats recs).Sorted byValueDesc ∧
    ((capacity_stats recs).map Prod.snd).sum = total_mw recs ∧
    (∀ e ∈ capacity_stats recs, e.2 = capacityFor recs e.1) ∧
    ((capacity_stats recs).map Prod.fst).Nodup ∧
    (∀ f, f ∈ (capacity_stats recs).map Prod.fst ↔ f ∈ recs.map Record.primary_fuel) := by
  have hfst : ((fuelKeys recs).map fun k => (k, capacityFor recs k)).map Prod.fst
      = fuelKeys recs := by
    rw [List.map_map]
    exact List.map_id _
  refine ⟨capacity_stats_sorted recs, capacity_stats_sum recs, ?_, ?_, ?_⟩
  · intro e he
    have hm := (capacity_stats_perm recs).mem_iff.mp he
    rcases List.mem_map.mp hm with ⟨k, _, rfl⟩
    rfl
  · rw [((capacity_stats_perm recs).map Prod.fst).nodup_iff, hfst]
    exact fuelKeys_nodup recs
  · intro f
    rw [((capacity_stats_perm recs).map Prod.fst).mem_iff, hfst]
    exact mem_fuelKeys

/-- Witness for C2 at the scenario given in the specification (Coal 100 + 30,
Solar 50). -/
theorem c2_summarize_by_fuel_witness :
    ((capacity_stats [sampleCoal, sampleSolar, sampleSmall]).map Prod.snd).sum
      = total_mw [sampleCoal, sampleSolar, sampleSmall] ∧
    (("Coal", (130 : ℚ)) ∈ capacity_stats [sampleCoal, sampleSolar, sampleSmall] →
      (130 : ℚ) = capacityFor [sampleCoal, sampleSolar, sampleSmall] "Coal") := by
  constructor
  · exact (c2_summarize_by_fuel [sampleCoal, sampleSolar, sampleSmall]).2.1
  · exact fun hm =>
      (c2_summarize_by_fuel [sampleCoal, sampleSolar, sampleSmall]).2.2.1 _ hm

/-- C3: on the empty filtered set, line 52 computes the mean of an empty
series for both coordinates; the result is `NaN` (modelled `none`), passed
silently to `folium.Map` — there is no sentinel and no `EmptySetError`. -/
theorem c3_map_center_nan_on_empty : map_center [] = (none, none) := rfl

/-- C4 counterexample: the exported CSV keeps the filtered dataframe order;
with a 30 MW record ahead of a 100 MW record the data rows are not ordered
by `capacity_mw` descending (only the on-screen table of line 92 is
sorted; line 93 exports the unsorted `region_df`). -/
theorem c4_export_order_counterexample :
    parseRows (to_csv [sampleSmall, sampleCoal])
      = [headerCells, recordCells sampleSmall, recordCells sampleCoal] ∧
    sampleSmall.capacity_mw < sampleCoal.capacity_mw := by
  constructor
  · rw [parseRows_to_csv]
    rfl
  · decide

/-- C4 amended: the export is a pure function of the filtered records whose
text has the recognized-columns header row followed by one row per record
in dataframe (filter) order — not re-sorted — and the bytes are the UTF-8
encoding of that text. -/
theorem c4_export_structure (recs : List Record) :
    parseRows (to_csv recs) = headerCells :: recs.map recordCells ∧
    csvBytes recs = (to_csv recs).toUTF8 :=
  ⟨parseRows_to_csv recs, rfl⟩

/-- C5 counterexample: on the empty filtered set the KPI block renders
nothing at all (lines 45–49 are guarded by non-emptiness); it does not
report `totalMw = 0`, `plantCount = 0`, `topFuel = "N/A"`. -/
theorem c5_empty_metrics_counterexample :
    kpi_block [] = none ∧ kpi_block [] ≠ some (0, 0, "N/A") := by
  refine ⟨rfl, ?_⟩
  intro h
  exact Option.noConfusion h

/-- C5 amended: the KPI block renders no metrics on the empty set; on every
non-empty record list it reports the capacity sum, the record count, and
the fuel of the first summary entry. -/
theorem c5_kpi_metrics (recs : List Record) (h : recs ≠ []) :
    (∃ e, (capacity_stats recs).head? = some e ∧
      kpi_block recs = some (total_mw recs, recs.length, e.1)) ∧
    kpi_block [] = none ∧
    total_mw recs = (recs.map Record.capacity_mw).sum := by
  have hne := capacity_stats_ne_nil h
  have hie : recs.isEmpty = false := by
    cases recs with
    | nil => exact absurd rfl h
    | cons a l => rfl
  rcases List.exists_cons_of_ne_nil hne with ⟨e, tl, he⟩
  refine ⟨⟨e, by rw [he]; rfl, ?_⟩, rfl, rfl⟩
  simp [kpi_block, hie, he]

/-- Witness for C5 at a concrete non-empty dataset. -/
theorem c5_kpi_metrics_witness :
    (∃ e, (capacity_stats [sampleCoal]).head? = some e ∧
      kpi_block [sampleCoal] = some (total_mw [sampleCoal], [sampleCoal].length, e.1)) ∧
    kpi_block ([] : List Record) = none ∧
    total_mw [sampleCoal] = ([sampleCoal].map Record.capacity_mw).sum :=
  c5_kpi_metrics [sampleCoal] (by simp)

/-- C6: the loader coerces `capacity_mw` (unparseable cells become null) and
keeps exactly the rows whose latitude, longitude and capacity are non-null,
in the original order. -/
theorem c6_loader (rows : List RawRow) : load_data rows = loadSpec rows :=
  load_data_eq_loadSpec rows

/-- C7: the fuel→color lookup is total: the six mapped fuels get their
colors and every other string falls back to gray, so no lookup fails. -/
theorem c7_color_total :
    colorKey "Nuclear" = "purple" ∧ colorKey "Coal" = "black" ∧
    colorKey "Hydro" = "blue" ∧ colorKey "Solar" = "orange" ∧
    colorKey "Gas" = "red" ∧ colorKey "Wind" = "green" ∧
    ∀ f, f ∉ ["Nuclear", "Coal", "Hydro", "Solar", "Gas", "Wind"] →
      colorKey f = "gray" := by
  refine ⟨rfl, rfl, rfl, rfl, rfl, rfl, ?_⟩
  intro f hf
  simp only [List.mem_cons, List.not_mem_nil, or_false, not_or] at hf
  obtain ⟨h1, h2, h3, h4, h5, h6⟩ := hf
  have e1 : (("Nuclear" : String) == f) = false := beq_eq_false_iff_ne.mpr (Ne.symm h1)
  have e2 : (("Coal" : String) == f) = false := beq_eq_false_iff_ne.mpr (Ne.symm h2)
  have e3 : (("Hydro" : String) == f) = false := beq_eq_false_iff_ne.mpr (Ne.symm h3)
  have e4 : (("Solar" : String) == f) = false := beq_eq_false_iff_ne.mpr (Ne.symm h4)
  have e5 : (("Gas" : String) == f) = false := beq_eq_false_iff_ne.mpr (Ne.symm h5)
  have e6 : (("Wind" : String) == f) = false := beq_eq_false_iff_ne.mpr (Ne.symm h6)
  simp [colorKey, colors, List.find?, e1, e2, e3, e4, e5, e6]

/-- Witness for C7: an unmapped fuel gets the gray default. -/
theorem c7_color_total_witness : colorKey "Biomass" = "gray" :=
  c7_color_total.2.2.2.2.2.2 "Biomass" (by decide)

/-- C8: parsing the bytes exported for a filtered dataset yields exactly the
filtered records back (here even in the same order, which implies equality
as a set of records). -/
theorem c8_csv_roundtrip (rawRows : List RawRow) (country : String) (fuels : List String) :
    parseCsv (to_csv (region_df (load_data rawRows) country fuels)) =
      some (region_df (load_data rawRows) country fuels) := by
  have hmem : ∀ r ∈ region_df (load_data rawRows) country fuels,
      r ∈ load_data rawRows := fun r hr => List.mem_of_mem_filter hr
  unfold parseCsv
  rw [parseRows_to_csv]
  show (if headerCells = headerCells then
      recordsFromRows ((region_df (load_data rawRows) country fuels).map recordCells)
    else none) = _
  rw [if_pos rfl]
  apply recordsFromRows_ok
  intro r hr
  obtain ⟨raw, _, hca, hla, hlo, _⟩ := load_data_mem (hmem r hr)
  exact cellsToRecord_recordCells r (parseRat_decden hca) (parseRat_decden hla)
    (parseRat_decden hlo)

/-- C9 counterexample: the loader enforces no lower bound on capacity: a row
with capacity cell `"-1"` and valid coordinates survives `dropna` and lands
in the dataset with a negative `capacity_mw`. -/
theorem c9_nonneg_counterexample :
    load_data [negRow] = [negRec] ∧ negRec.capacity_mw < 0 := by
  constructor
  · decide
  · decide

/-- C9 amended: after loading, every record does have non-null latitude,
longitude and capacity (each is the parsed value of its raw cell); its
capacity is non-negative only under the input assumption that every raw
capacity cell parses to a non-negative value — the loader itself never
checks the sign. -/
theorem c9_loader_invariant (rows : List RawRow)
    (hpos : ∀ raw ∈ rows, ∀ q, parseRat raw.capacity_mw = some q → 0 ≤ q) :
    ∀ r ∈ load_data rows,
      (∃ raw ∈ rows, parseRat raw.capacity_mw = some r.capacity_mw ∧
        parseRat raw.latitude = some r.latitude ∧
        parseRat raw.longitude = some r.longitude) ∧
      0 ≤ r.capacity_mw := by
  intro r hr
  obtain ⟨raw, hraw, hca, hla, hlo, _⟩ := load_data_mem hr
  exact ⟨⟨raw, hraw, hca, hla, hlo⟩, hpos raw hraw _ hca⟩

theorem parseRat_mk_cons (c : Char) (cs : List Char) :
    parseRat (String.mk (c :: cs)) =
      if c = '-' then (parseUnsigned cs).map (fun q => -q)
      else parseUnsigned (c :: cs) := rfl

theorem natToDigits_five : natToDigits 5 = ['5'] := by
  rw [natToDigits, dif_pos (by norm_num)]
  rfl

theorem natToDigits_seven : natToDigits 7 = ['7'] := by
  rw [natToDigits, dif_pos (by norm_num)]
  rfl

theorem parseRat_seven_point_five :
    parseRat (String.mk ['7', '.', '5']) = some ((15 : ℚ) / 2) := by
  have hpad : padDigits 1 5 = ['5'] := by
    simp [padDigits, natToDigits_five]
  have hlist : (['7', '.', '5'] : List Char) = natToDigits 7 ++ '.' :: padDigits 1 5 := by
    rw [natToDigits_seven, hpad]
    rfl
  rw [parseRat_mk_cons, if_neg (by decide), hlist,
    parseUnsigned_frac 7 5 1 (le_refl 1) (by norm_num)]
  norm_num [Rat.divInt_eq_div]

/-- Witness for C9 at a concrete one-row input. -/
theorem c9_loader_invariant_witness :
    ((∃ raw ∈ [goodRow], parseRat raw.capacity_mw = some goodRec.capacity_mw ∧
        parseRat raw.latitude = some goodRec.latitude ∧
        parseRat raw.longitude = some goodRec.longitude) ∧
      0 ≤ goodRec.capacity_mw) := by
  have hparse : parseRat goodRow.capacity_mw = some ((15 : ℚ) / 2) :=
    parseRat_seven_point_five
  have hlat : parseRat goodRow.latitude = some ((10 : ℚ)) := by decide
  have hlon : parseRat goodRow.longitude = some ((20 : ℚ)) := by decide
  have hload : load_data [goodRow] = [goodRec] := by
    rw [load_data_cons, hparse, hlat, hlon]
    rfl
  refine c9_loader_invariant [goodRow] ?_ goodRec ?_
  · intro raw hraw q hq
    have hrw : raw = goodRow := by simpa using hraw
    subst hrw
    rw [hparse] at hq
    have hq2 := Option.some.inj hq
    rw [← hq2]
    norm_num
  · rw [hload]
    simp

/-- C10: the `capacity_stats.index[0]` read is guarded by the same
non-emptiness test as the KPI block, and a non-empty filtered set always
produces a non-empty summary, so the first-element access always succeeds
(and line 49 is simply never reached on the empty set). -/
theorem c10_main_source_safe (recs : List Record) (h : recs ≠ []) :
    capacity_stats recs ≠ [] ∧
    (∃ f, kpi_block recs = some (total_mw recs, recs.length, f)) ∧
    kpi_block [] = none := by
  have hne := capacity_stats_ne_nil h
  have hie : recs.isEmpty = false := by
    cases recs with
    | nil => exact absurd rfl h
    | cons a l => rfl
  rcases List.exists_cons_of_ne_nil hne with ⟨e, tl, he⟩
  refine ⟨hne, ⟨e.1, ?_⟩, rfl⟩
  simp [kpi_block, hie, he]

/-- Witness for C10 at a concrete non-empty dataset. -/
theorem c10_main_source_safe_witness :
    capacity_stats [sampleCoal] ≠ [] ∧
    (∃ f, kpi_block [sampleCoal] = some (total_mw [sampleCoal], [sampleCoal].length, f)) ∧
    kpi_block ([] : List Record) = none :=
  c10_main_source_safe [sampleCoal] (by simp)

end GPA
